import Mathlib

/-!
Verification of the telemetry windowing and segmentation engine of the
dashboard page (`src/pages/Dashboard.tsx`, with an alternate copy of the same
component in the repository).  The definitions below are a shallow embedding
of the TypeScript source:

* `Row` embeds the `Row` type of the source; optional/nullable numeric fields
  become `Option Rat` (JS numbers are modelled as rationals; an absent value,
  `undefined`, `null` and `NaN` for a metric are all modelled as `none`, which
  is exactly the set of values skipped by `yVal == null || Number.isNaN(yVal)`).
  `id : string | number` and `sensor_id : string | number` are modelled by
  their JS stringification (the source always passes them through `String(..)`
  or a template literal before use).
* JS `Map<string, Row>` (insertion-ordered, `set` overwrites in place) is
  modelled by an association list with `aset` / `alookup`.
* `Array.prototype.sort` with a numeric comparator is stable (ES2019), so a
  sort by `(a, b) => a.timestamp - b.timestamp` is modelled by the stable
  `List.insertionSort` with the relation `tsLE`.
-/

structure Row where
  id : Option String
  sensor_id : String
  timestamp : Int
  co2 : Option Rat
  temperature : Option Rat
  temp : Option Rat
  humidity : Option Rat
  mode : Option Int
deriving DecidableEq, Repr

/-- The dedup key of the merge in `setIaq`:
`r.id != null ? String(r.id) : ` followed by the template
literal combining `sensor_id` and `timestamp`. -/
def rowKey (r : Row) : String :=
  match r.id with
  | some i => i
  | none => r.sensor_id ++ "-" ++ toString r.timestamp

/-- Insertion-ordered string-keyed map update, as JS `Map.prototype.set` /
JS object property assignment: overwrite in place if the key is present,
append a new entry otherwise. -/
def aset {α : Type} (m : List (String × α)) (k : String) (v : α) :
    List (String × α) :=
  if k ∈ m.map Prod.fst then
    m.map (fun p => if p.1 = k then (k, v) else p)
  else m ++ [(k, v)]

/-- JS `Map.prototype.get` / object property read. -/
def alookup {α : Type} : List (String × α) → String → Option α
  | [], _ => none
  | p :: m, k => if p.1 = k then some p.2 else alookup m k

/-- The loop `for (const r of merged) map.set(key, r)` of `setIaq`,
generalized to an arbitrary starting map. -/
def dedupFrom (m : List (String × Row)) (l : List Row) : List (String × Row) :=
  l.foldl (fun m r => aset m (rowKey r) r) m

/-- The relation of the sort comparator `(a, b) => a.timestamp - b.timestamp`. -/
def tsLE (a b : Row) : Prop := a.timestamp ≤ b.timestamp

instance : DecidableRel tsLE := fun a b => inferInstanceAs (Decidable (a.timestamp ≤ b.timestamp))

instance : IsTotal Row tsLE := ⟨fun a b => Int.le_total a.timestamp b.timestamp⟩

instance : IsTrans Row tsLE := ⟨fun _ _ _ h h2 => le_trans h h2⟩

/-- The merge-and-prune operation of the `setIaq` state update:
`merged = [...prev, ...incoming]`, dedup through the key map (new overwrites
old), drop entries older than the cutoff, and sort ascending by timestamp. -/
def mergeStore (prev incoming : List Row) (cutoff : Int) : List Row :=
  List.insertionSort tsLE
    (((dedupFrom [] (prev ++ incoming)).map Prod.snd).filter
      (fun r => decide (cutoff ≤ r.timestamp)))

/-- The per-row adjustment of the active `onSuccess` handler: for
`sensor_id === "before_scrub"` replace `co2` by `(co2 ?? 0) - 66.88`. -/
def dashAdjust (r : Row) : Row :=
  if r.sensor_id = "before_scrub" then
    { r with co2 := some (r.co2.getD 0 - 6688 / 100) }
  else r

/-- The full store update of the active `onSuccess` handler in
`Dashboard.tsx`: adjust the incoming batch, then merge-and-prune. -/
def onSuccessStore (prev batch : List Row) (cutoff : Int) : List Row :=
  mergeStore prev (batch.map dashAdjust) cutoff

/-- The fixed six-entry palette `MODE_COLORS`; an integer mode outside 0..5
has no entry (`MODE_COLORS[mode] == null`). -/
def modeColor (m : Int) : Option String :=
  if m = 0 then some "rgba(148,163,184,0.18)"
  else if m = 1 then some "rgba(59,130,246,0.18)"
  else if m = 2 then some "rgba(34,197,94,0.20)"
  else if m = 3 then some "rgba(250,204,21,0.20)"
  else if m = 4 then some "rgba(56,189,248,0.20)"
  else if m = 5 then some "rgba(248,113,113,0.22)"
  else none

structure Band where
  fromTs : Int
  toTs : Int
  color : String
deriving DecidableEq, Repr

/-- A closed band `{ from: s, to: t, color: MODE_COLORS[m] }`.  When the loop
pushes a band, `currentMode` was set in the classified branch, so
`MODE_COLORS[currentMode]` is defined; the `getD` default is unreachable. -/
def bandOf (s t : Int) (m : Int) : Band :=
  { fromTs := s, toTs := t, color := (modeColor m).getD "" }

/-- The loop body of `buildModeBands` over the sorted in-window control-channel
rows, with state `(currentMode, currentStart)` (both `null` or both set), plus
the terminal flush to `windowEnd`.  `cs.getD 0` models the non-null assertion
`currentStart!` of the source. -/
def bandsGo (we : Int) : List Row → Option Int → Option Int → List Band
  | [], cm, cs =>
    match cm, cs with
    | some m, some s => [bandOf s we m]
    | _, _ => []
  | r :: rest, cm, cs =>
    match r.mode with
    | none =>
      match cm, cs with
      | some m0, some s => bandOf s r.timestamp m0 :: bandsGo we rest none none
      | _, _ => bandsGo we rest cm cs
    | some m =>
      if (modeColor m).isNone then
        match cm, cs with
        | some m0, some s => bandOf s r.timestamp m0 :: bandsGo we rest none none
        | _, _ => bandsGo we rest cm cs
      else
        match cm with
        | none => bandsGo we rest (some m) (some r.timestamp)
        | some m0 =>
          if m ≠ m0 then
            bandOf (cs.getD 0) r.timestamp m0 :: bandsGo we rest (some m) (some r.timestamp)
          else bandsGo we rest cm cs

/-- `buildModeBands`: filter to the control channel (named alias or legacy
numeric alias), restrict to the window, sort ascending by timestamp, then run
the band state machine. -/
def buildModeBands (rows : List Row) (windowStart windowEnd : Int) : List Band :=
  bandsGo windowEnd
    (((rows.filter (fun r =>
        decide (r.sensor_id = "interlock_4c" ∨ r.sensor_id = "4"))).filter
      (fun r => decide (windowStart ≤ r.timestamp ∧ r.timestamp ≤ windowEnd))).insertionSort tsLE)
    none none

structure Point where
  x : Int
  y : Rat
deriving DecidableEq, Repr

/-- The relation of the point sort comparator `(a, b) => a.x - b.x`. -/
def ptLE (a b : Point) : Prop := a.x ≤ b.x

instance : DecidableRel ptLE := fun a b => inferInstanceAs (Decidable (a.x ≤ b.x))

instance : IsTotal Point ptLE := ⟨fun a b => Int.le_total a.x b.x⟩

instance : IsTrans Point ptLE := ⟨fun _ _ _ h h2 => le_trans h h2⟩

/-- `bySensor.get(sid)!.push(pt)` preceded by
`if (!bySensor.has(sid)) bySensor.set(sid, [])`. -/
def bucketPush (m : List (String × List Point)) (k : String) (p : Point) :
    List (String × List Point) :=
  aset m k ((alookup m k).getD [] ++ [p])

/-- The loop body of `buildSeries`: skip rows outside the window, skip rows
whose selected metric has no value, otherwise push the point onto the
sensor's bucket. -/
def bucketStep (ws we : Int) (pickY : Row → Option Rat)
    (m : List (String × List Point)) (r : Row) : List (String × List Point) :=
  if r.timestamp < ws ∨ we < r.timestamp then m
  else
    match pickY r with
    | none => m
    | some y => bucketPush m r.sensor_id { x := r.timestamp, y := y }

/-- The `bySensor` map of `buildSeries` after the loop. -/
def buildBuckets (rows : List Row) (ws we : Int) (pickY : Row → Option Rat) :
    List (String × List Point) :=
  rows.foldl (bucketStep ws we pickY) []

/-- `buildSeries`: one series per bucket, named through `sensorLabel`, data
sorted ascending by `x` (stable sort `pts.sort((a, b) => a.x - b.x)`). -/
def buildSeries (rows : List Row) (ws we : Int) (pickY : Row → Option Rat)
    (sensorLabel : String → String) : List (String × List Point) :=
  (buildBuckets rows ws we pickY).map
    (fun p => (sensorLabel p.1, p.2.insertionSort ptLE))

/-- A latest-value record as built by `getLastestIAQData` (field `label`
mirrors the fallback's `label`).  The `timestamp` slot is `Option Int`
because the spec discusses a null timestamp; the source only ever stores
numbers in it (`0` in the fallback). -/
structure Snapshot where
  id : String
  label : String
  sensor_id : String
  timestamp : Option Int
  co2 : Option Rat
  humidity : Option Rat
  temperature : Option Rat
  mode : Option Int
deriving DecidableEq, Repr

def targetSensors : List String := ["before_scrub", "after_scrub", "interlock_4c"]

/-- The `label` field of `fallbackMap[sid]`. -/
def labelFor (sid : String) : String :=
  if sid = "before_scrub" then "Inlet (Before Scrub)"
  else if sid = "after_scrub" then "Outlet (After Scrub)"
  else if sid = "interlock_4c" then "Interlock 4C"
  else ""

/-- `fallbackMap[sid]`: id `"-"`, timestamp `0`, all measurement fields and
mode `null`. -/
def fallbackFor (sid : String) : Snapshot :=
  { id := "-", label := labelFor sid, sensor_id := sid, timestamp := some 0,
    co2 := none, humidity := none, temperature := none, mode := none }

/-- The replacement record `latest[sid] = { ... }` built from a row. -/
def snapOf (sid : String) (el : Row) : Snapshot :=
  { id := el.id.getD (sid ++ "-" ++ toString el.timestamp),
    label := labelFor sid,
    sensor_id := sid,
    timestamp := some el.timestamp,
    co2 := el.co2,
    humidity := el.humidity,
    temperature := el.temperature <|> el.temp,
    mode := el.mode }

/-- The replacement condition `!current || el.timestamp > current.timestamp`
(JS compares numbers; a null timestamp would coerce to `0`, modelled by
`getD 0`). -/
def latestUpdate? (cur? : Option Snapshot) (el : Row) : Bool :=
  match cur? with
  | none => true
  | some cur => decide (cur.timestamp.getD 0 < el.timestamp)

/-- The loop body of `getLastestIAQData`: skip rows whose sensor is not in
`targetSensors`; otherwise replace the kept record when
`!current || el.timestamp > current.timestamp`. -/
def latestStep (m : List (String × Snapshot)) (el : Row) :
    List (String × Snapshot) :=
  if el.sensor_id ∈ targetSensors then
    if latestUpdate? (alookup m el.sensor_id) el then
      aset m el.sensor_id (snapOf el.sensor_id el)
    else m
  else m

/-- The `latest` record initialised as a clone of `fallbackMap`. -/
def initLatest : List (String × Snapshot) :=
  targetSensors.map (fun s => (s, fallbackFor s))

/-- `getLastestIAQData` up to the point where the three records are read
back out of `latest` (the subsequent `setNewestIAQ` / `setModeOperate` calls
only consume these records). -/
def getLastestIAQData (rows : List Row) : List (String × Snapshot) :=
  rows.foldl latestStep initLatest

/-! ### Association-list lemmas shared by the merge, series and latest-value
developments. -/

theorem alookup_eq_none {α : Type} (m : List (String × α)) (k : String) :
    alookup m k = none ↔ k ∉ m.map Prod.fst := by
  induction m with
  | nil => simp [alookup]
  | cons p m ih =>
    by_cases h : p.1 = k
    · simp [alookup, h]
    · simp [alookup, h, ih, Ne.symm h]

theorem alookup_append_left {α : Type} (m₁ m₂ : List (String × α)) (k : String) (v : α)
    (h : alookup m₁ k = some v) : alookup (m₁ ++ m₂) k = some v := by
  induction m₁ with
  | nil => simp [alookup] at h
  | cons p m ih =>
    by_cases hp : p.1 = k
    · simp [alookup, hp] at h ⊢; exact h
    · simp [alookup, hp] at h ⊢; exact ih h

theorem alookup_append_right {α : Type} (m₁ m₂ : List (String × α)) (k : String)
    (h : alookup m₁ k = none) : alookup (m₁ ++ m₂) k = alookup m₂ k := by
  induction m₁ with
  | nil => simp
  | cons p m ih =>
    by_cases hp : p.1 = k
    · simp [alookup, hp] at h
    · simp [alookup, hp] at h ⊢; exact ih h

theorem alookup_replace_self {α : Type} (m : List (String × α)) (k : String) (v : α)
    (h : k ∈ m.map Prod.fst) :
    alookup (m.map (fun p => if p.1 = k then (k, v) else p)) k = some v := by
  induction m with
  | nil => simp at h
  | cons p m ih =>
    by_cases hp : p.1 = k
    · simp [alookup, hp]
    · have hkm : k ∈ m.map Prod.fst := by
        rw [List.map_cons] at h
        rcases List.mem_cons.mp h with h1 | h1
        · exact absurd h1.symm hp
        · exact h1
      simp [alookup, hp, ih hkm]

theorem alookup_replace_ne {α : Type} (m : List (String × α)) (k c : String) (v : α)
    (h : c ≠ k) :
    alookup (m.map (fun p => if p.1 = k then (k, v) else p)) c = alookup m c := by
  induction m with
  | nil => simp [alookup]
  | cons p m ih =>
    by_cases hp : p.1 = k
    · simp [alookup, hp, Ne.symm h, ih]
    · by_cases hc : p.1 = c
      · simp [alookup, hp, hc, h]
      · simp [alookup, hp, hc, ih]

theorem alookup_aset_self {α : Type} (m : List (String × α)) (k : String) (v : α) :
    alookup (aset m k v) k = some v := by
  unfold aset
  by_cases h : k ∈ m.map Prod.fst
  · simpa [h] using alookup_replace_self m k v h
  · rw [if_neg h, alookup_append_right _ _ _ ((alookup_eq_none m k).mpr h)]
    simp [alookup]

theorem alookup_aset_ne {α : Type} (m : List (String × α)) (k c : String) (v : α)
    (h : c ≠ k) : alookup (aset m k v) c = alookup m c := by
  unfold aset
  by_cases hk : k ∈ m.map Prod.fst
  · simpa [hk] using alookup_replace_ne m k c v h
  · rw [if_neg hk]
    by_cases hc : alookup m c = none
    · rw [alookup_append_right _ _ _ hc, hc]; simp [alookup, Ne.symm h]
    · rcases Option.ne_none_iff_exists'.mp hc with ⟨v', hv⟩
      rw [alookup_append_left _ _ _ _ hv, hv]

theorem aset_mem {α : Type} {m : List (String × α)} {k : String} {v : α}
    {p : String × α} (h : p ∈ aset m k v) : p ∈ m ∨ p = (k, v) := by
  unfold aset at h
  by_cases hk : k ∈ m.map Prod.fst
  · rw [if_pos hk] at h
    rcases List.mem_map.mp h with ⟨q, hq, hqe⟩
    by_cases hq1 : q.1 = k
    · right; rw [if_pos hq1] at hqe; exact hqe.symm
    · left; rw [if_neg hq1] at hqe; exact hqe ▸ hq
  · rw [if_neg hk] at h
    rcases List.mem_append.mp h with h1 | h1
    · exact Or.inl h1
    · simp at h1; exact Or.inr h1

theorem aset_keys_of_mem {α : Type} {m : List (String × α)} {k : String} (v : α)
    (h : k ∈ m.map Prod.fst) : (aset m k v).map Prod.fst = m.map Prod.fst := by
  unfold aset
  rw [if_pos h, List.map_map]
  refine List.map_congr_left fun p _ => ?_
  by_cases hp : p.1 = k
  · simp [hp]
  · simp [hp]

theorem aset_of_not_mem {α : Type} {m : List (String × α)} {k : String} (v : α)
    (h : k ∉ m.map Prod.fst) : aset m k v = m ++ [(k, v)] := if_neg h

theorem aset_keys_nodup {α : Type} {m : List (String × α)} {k : String} (v : α)
    (h : (m.map Prod.fst).Nodup) : ((aset m k v).map Prod.fst).Nodup := by
  by_cases hk : k ∈ m.map Prod.fst
  · rw [aset_keys_of_mem v hk]; exact h
  · rw [aset_of_not_mem v hk]
    simp only [List.map_append, List.map_cons, List.map_nil]
    exact List.Nodup.append h (List.nodup_singleton k) (by simpa using fun h1 => hk h1)

theorem mem_keys_aset {α : Type} (m : List (String × α)) (k : String) (v : α) :
    k ∈ (aset m k v).map Prod.fst := by
  by_cases hk : k ∈ m.map Prod.fst
  · rw [aset_keys_of_mem v hk]; exact hk
  · rw [aset_of_not_mem v hk]; simp

theorem keys_subset_aset {α : Type} (m : List (String × α)) (k : String) (v : α) :
    m.map Prod.fst ⊆ (aset m k v).map Prod.fst := by
  by_cases hk : k ∈ m.map Prod.fst
  · rw [aset_keys_of_mem v hk]; exact List.Subset.refl _
  · rw [aset_of_not_mem v hk]; intro x hx; simp [hx]


theorem alookup_of_mem_nodup {α : Type} {m : List (String × α)} {k : String} {v : α}
    (h : (k, v) ∈ m) (hn : (m.map Prod.fst).Nodup) : alookup m k = some v := by
  induction m with
  | nil => simp at h
  | cons p m ih =>
    rcases List.mem_cons.mp h with h1 | h1
    · simp [alookup, ← h1]
    · rw [List.map_cons, List.nodup_cons] at hn
      have hp : p.1 ≠ k := by
        intro hpk
        have hkm : k ∈ m.map Prod.fst := List.mem_map.mpr ⟨(k, v), h1, rfl⟩
        exact hn.1 (by rw [hpk]; exact hkm)
      simp [alookup, hp]
      exact ih h1 hn.2

theorem mem_of_alookup {α : Type} {m : List (String × α)} {k : String} {v : α}
    (h : alookup m k = some v) : (k, v) ∈ m := by
  induction m with
  | nil => simp [alookup] at h
  | cons p m ih =>
    by_cases hp : p.1 = k
    · simp [alookup, hp] at h
      exact List.mem_cons.mpr (Or.inl (by rw [← hp, ← h]))
    · simp [alookup, hp] at h
      exact List.mem_cons_of_mem _ (ih h)

/-! ### Dedup-map theory for the merge of `setIaq` -/

theorem dedupFrom_nil (m : List (String × Row)) : dedupFrom m [] = m := rfl

theorem dedupFrom_cons (m : List (String × Row)) (r : Row) (l : List Row) :
    dedupFrom m (r :: l) = dedupFrom (aset m (rowKey r) r) l := rfl

theorem dedupFrom_append (m : List (String × Row)) (l₁ l₂ : List Row) :
    dedupFrom m (l₁ ++ l₂) = dedupFrom (dedupFrom m l₁) l₂ :=
  List.foldl_append _ _ _ _

/-- The last row of `l` whose key is `k`, with default `v`. -/
def lastK (l : List Row) (k : String) (v : Row) : Row :=
  l.foldl (fun acc r => if rowKey r = k then r else acc) v

theorem lastK_nil (k : String) (v : Row) : lastK [] k v = v := rfl

theorem lastK_cons (r : Row) (l : List Row) (k : String) (v : Row) :
    lastK (r :: l) k v = lastK l k (if rowKey r = k then r else v) := rfl

theorem lastK_append (l₁ l₂ : List Row) (k : String) (v : Row) :
    lastK (l₁ ++ l₂) k v = lastK l₂ k (lastK l₁ k v) :=
  List.foldl_append _ _ _ _

theorem lastK_default_irrel {l : List Row} {k : String}
    (h : ∃ x ∈ l, rowKey x = k) (v w : Row) : lastK l k v = lastK l k w := by
  induction l with
  | nil => simp at h
  | cons r l ih =>
    by_cases hr : rowKey r = k
    · rw [lastK_cons, lastK_cons, if_pos hr, if_pos hr]
    · rw [lastK_cons, lastK_cons, if_neg hr, if_neg hr]
      rcases h with ⟨x, hx, hxk⟩
      rcases List.mem_cons.mp hx with h1 | h1
      · exact absurd (h1 ▸ hxk) hr
      · exact ih ⟨x, h1, hxk⟩

theorem lastK_no_occ {l : List Row} {k : String}
    (h : ∀ x ∈ l, rowKey x ≠ k) (v : Row) : lastK l k v = v := by
  induction l with
  | nil => rfl
  | cons r l ih =>
    rw [lastK_cons, if_neg (h r (List.mem_cons_self r l))]
    exact ih fun x hx => h x (List.mem_cons_of_mem r hx)

theorem lastK_filter {l : List Row} {k : String} {pb : Row → Bool}
    (h : ∀ x ∈ l, rowKey x = k → pb x = true) (v : Row) :
    lastK (l.filter pb) k v = lastK l k v := by
  induction l generalizing v with
  | nil => rfl
  | cons r l ih =>
    by_cases hr : pb r = true
    · rw [List.filter_cons_of_pos hr, lastK_cons, lastK_cons]
      exact ih (fun x hx hxk => h x (List.mem_cons_of_mem r hx) hxk) _
    · have hrk : rowKey r ≠ k := fun he => hr (h r (List.mem_cons_self r l) he)
      rw [List.filter_cons_of_neg (by simpa using hr), lastK_cons, if_neg hrk]
      exact ih (fun x hx hxk => h x (List.mem_cons_of_mem r hx) hxk) v

theorem aset_val_of_key {α : Type} {m : List (String × α)} {k : String} {v : α}
    {p : String × α} (h : p ∈ aset m k v) (hp : p.1 = k) : p.2 = v := by
  unfold aset at h
  by_cases hk : k ∈ m.map Prod.fst
  · rw [if_pos hk] at h
    rcases List.mem_map.mp h with ⟨q, _, hqe⟩
    by_cases hq1 : q.1 = k
    · rw [if_pos hq1] at hqe; rw [← hqe]
    · rw [if_neg hq1] at hqe; exact absurd (hqe ▸ hp) hq1
  · rw [if_neg hk] at h
    rcases List.mem_append.mp h with h1 | h1
    · exact absurd (hp ▸ List.mem_map.mpr ⟨p, h1, rfl⟩) hk
    · simp at h1; rw [h1]

theorem dedup_wf : ∀ (l : List Row) (m : List (String × Row)),
    (∀ p ∈ m, p.1 = rowKey p.2) → ∀ p ∈ dedupFrom m l, p.1 = rowKey p.2 := by
  intro l
  induction l with
  | nil => intro m hm p hp; exact hm p hp
  | cons r l ih =>
    intro m hm p hp
    rw [dedupFrom_cons] at hp
    refine ih _ (fun q hq => ?_) p hp
    rcases aset_mem hq with h1 | h1
    · exact hm q h1
    · rw [h1]

theorem dedup_keys_nodup : ∀ (l : List Row) (m : List (String × Row)),
    (m.map Prod.fst).Nodup → ((dedupFrom m l).map Prod.fst).Nodup := by
  intro l
  induction l with
  | nil => intro m hm; exact hm
  | cons r l ih =>
    intro m hm
    rw [dedupFrom_cons]
    exact ih _ (aset_keys_nodup _ hm)

theorem dedup_keys_subset : ∀ (l : List Row) (m : List (String × Row)),
    m.map Prod.fst ⊆ (dedupFrom m l).map Prod.fst := by
  intro l
  induction l with
  | nil => intro m; exact List.Subset.refl _
  | cons r l ih =>
    intro m
    rw [dedupFrom_cons]
    exact (keys_subset_aset _ _ _).trans (ih _)

theorem mem_keys_dedupFrom : ∀ (l : List Row) (m : List (String × Row)) (r : Row),
    r ∈ l → rowKey r ∈ (dedupFrom m l).map Prod.fst := by
  intro l
  induction l with
  | nil => intro m r hr; simp at hr
  | cons x l ih =>
    intro m r hr
    rw [dedupFrom_cons]
    rcases List.mem_cons.mp hr with h1 | h1
    · subst h1
      exact dedup_keys_subset l _ (mem_keys_aset m (rowKey r) r)
    · exact ih _ r h1

theorem dedup_val_mem : ∀ (l : List Row) (m : List (String × Row))
    (p : String × Row), p ∈ dedupFrom m l → p ∈ m ∨ p.2 ∈ l := by
  intro l
  induction l with
  | nil => intro m p hp; exact Or.inl hp
  | cons r l ih =>
    intro m p hp
    rw [dedupFrom_cons] at hp
    rcases ih _ p hp with h1 | h1
    · rcases aset_mem h1 with h2 | h2
      · exact Or.inl h2
      · right; rw [h2]; exact List.mem_cons_self r l
    · exact Or.inr (List.mem_cons_of_mem r h1)

theorem dedup_key_pres : ∀ (l : List Row) (m : List (String × Row)) (k : String),
    (∀ x ∈ l, rowKey x ≠ k) → ∀ p ∈ dedupFrom m l, p.1 = k → p ∈ m := by
  intro l
  induction l with
  | nil => intro m k _ p hp _; exact hp
  | cons r l ih =>
    intro m k hno p hp hk
    rw [dedupFrom_cons] at hp
    have hmem := ih _ k (fun x hx => hno x (List.mem_cons_of_mem r hx)) p hp hk
    rcases aset_mem hmem with h1 | h1
    · exact h1
    · exfalso
      apply hno r (List.mem_cons_self r l)
      rw [← hk, h1]

theorem dedup_lastK : ∀ (l : List Row) (m : List (String × Row)),
    ∀ p ∈ dedupFrom m l, lastK l p.1 p.2 = p.2 := by
  intro l
  induction l with
  | nil => intro m p _; rfl
  | cons r l ih =>
    intro m p hp
    rw [dedupFrom_cons] at hp
    by_cases hk : p.1 = rowKey r
    · rw [lastK_cons, if_pos hk.symm]
      by_cases hocc : ∃ x ∈ l, rowKey x = p.1
      · calc lastK l p.1 r = lastK l p.1 p.2 := lastK_default_irrel hocc r p.2
          _ = p.2 := ih _ p hp
      · push_neg at hocc
        rw [lastK_no_occ hocc]
        have hpm : p ∈ aset m (rowKey r) r := dedup_key_pres l _ p.1 hocc p hp rfl
        exact (aset_val_of_key hpm hk).symm
    · rw [lastK_cons, if_neg (fun he => hk he.symm)]
      exact ih _ p hp

/-- Entrywise update of a map region by the last occurrence of each key in a
batch. -/
def updKR (m : List (String × Row)) (B : List Row) : List (String × Row) :=
  m.map (fun p => (p.1, lastK B p.1 p.2))

/-- The entries a list of rows with pairwise distinct keys contributes to the
dedup map. -/
def pairKR (l : List Row) : List (String × Row) :=
  l.map (fun r => (rowKey r, r))

theorem map_replace_id {α : Type} (m : List (String × α)) (k : String) (v : α)
    (h : ∀ p ∈ m, p.1 ≠ k) :
    m.map (fun p => if p.1 = k then (k, v) else p) = m := by
  trans (m.map id)
  · exact List.map_congr_left fun p hp => by simp [h p hp]
  · exact List.map_id m

theorem replace_keys {α : Type} (m : List (String × α)) (k : String) (v : α) :
    (m.map (fun p => if p.1 = k then (k, v) else p)).map Prod.fst =
      m.map Prod.fst := by
  rw [List.map_map]
  exact List.map_congr_left fun p _ => by by_cases h : p.1 = k <;> simp [h]

theorem updKR_nil (m : List (String × Row)) : updKR m [] = m := by
  unfold updKR
  trans (m.map id)
  · exact List.map_congr_left fun p _ => rfl
  · exact List.map_id m

theorem updKR_not_key (m : List (String × Row)) (r : Row) (B : List Row)
    (h : rowKey r ∉ m.map Prod.fst) : updKR m (r :: B) = updKR m B := by
  unfold updKR
  refine List.map_congr_left fun p hp => ?_
  have hne : rowKey r ≠ p.1 := fun he => h (he ▸ List.mem_map.mpr ⟨p, hp, rfl⟩)
  rw [lastK_cons, if_neg hne]

/-- Structural decomposition of the dedup loop over a map split into two
key-disjoint regions: the first region is updated in place entry by entry,
while keys outside it accumulate in the second region. -/
theorem dedupFrom_split : ∀ (B : List Row) (m₁ m₂ : List (String × Row)),
    (∀ k, k ∈ m₁.map Prod.fst → k ∉ m₂.map Prod.fst) →
    dedupFrom (m₁ ++ m₂) B =
      updKR m₁ B ++
        dedupFrom m₂ (B.filter (fun r => decide (rowKey r ∉ m₁.map Prod.fst))) := by
  intro B
  induction B with
  | nil =>
    intro m₁ m₂ _
    rw [dedupFrom_nil, List.filter_nil, dedupFrom_nil, updKR_nil]
  | cons r B ih =>
    intro m₁ m₂ hdisj
    rw [dedupFrom_cons]
    by_cases hk1 : rowKey r ∈ m₁.map Prod.fst
    · have hk2 : rowKey r ∉ m₂.map Prod.fst := hdisj _ hk1
      have hkapp : rowKey r ∈ (m₁ ++ m₂).map Prod.fst := by
        rw [List.map_append]; exact List.mem_append_left _ hk1
      have hstep : aset (m₁ ++ m₂) (rowKey r) r =
          m₁.map (fun p => if p.1 = rowKey r then (rowKey r, r) else p) ++ m₂ := by
        unfold aset
        rw [if_pos hkapp, List.map_append,
          map_replace_id m₂ _ r
            (fun p hp he => hk2 (by rw [← he]; exact List.mem_map.mpr ⟨p, hp, rfl⟩))]
      rw [hstep]
      have hdisj2 : ∀ k,
          k ∈ (m₁.map (fun p => if p.1 = rowKey r then (rowKey r, r) else p)).map Prod.fst →
            k ∉ m₂.map Prod.fst := by
        intro k hkm
        rw [replace_keys] at hkm
        exact hdisj k hkm
      rw [ih _ _ hdisj2, replace_keys]
      have hfilter : (r :: B).filter (fun x => decide (rowKey x ∉ m₁.map Prod.fst)) =
          B.filter (fun x => decide (rowKey x ∉ m₁.map Prod.fst)) :=
        List.filter_cons_of_neg (by simpa using hk1)
      rw [hfilter]
      congr 1
      unfold updKR
      rw [List.map_map]
      refine List.map_congr_left fun p hp => ?_
      by_cases hpk : p.1 = rowKey r
      · simp only [Function.comp, if_pos hpk]
        rw [lastK_cons, if_pos hpk.symm, hpk]
      · simp only [Function.comp, if_neg hpk]
        rw [lastK_cons, if_neg (fun he => hpk he.symm)]
    · have hfilter : (r :: B).filter (fun x => decide (rowKey x ∉ m₁.map Prod.fst)) =
          r :: B.filter (fun x => decide (rowKey x ∉ m₁.map Prod.fst)) :=
        List.filter_cons_of_pos (by simpa using hk1)
      rw [hfilter, updKR_not_key _ _ _ hk1, dedupFrom_cons]
      by_cases hk2 : rowKey r ∈ m₂.map Prod.fst
      · have hkapp : rowKey r ∈ (m₁ ++ m₂).map Prod.fst := by
          rw [List.map_append]; exact List.mem_append_right _ hk2
        have hstep : aset (m₁ ++ m₂) (rowKey r) r =
            m₁ ++ m₂.map (fun p => if p.1 = rowKey r then (rowKey r, r) else p) := by
          unfold aset
          rw [if_pos hkapp, List.map_append,
            map_replace_id m₁ _ r
              (fun p hp he => hk1 (by rw [← he]; exact List.mem_map.mpr ⟨p, hp, rfl⟩))]
        rw [hstep]
        have hstep2 : aset m₂ (rowKey r) r =
            m₂.map (fun p => if p.1 = rowKey r then (rowKey r, r) else p) := by
          unfold aset; rw [if_pos hk2]
        rw [hstep2]
        refine ih _ _ ?_
        intro k hkm
        rw [replace_keys]
        exact hdisj k hkm
      · have hkapp : rowKey r ∉ (m₁ ++ m₂).map Prod.fst := by
          rw [List.map_append]
          intro h
          rcases List.mem_append.mp h with h1 | h1
          · exact hk1 h1
          · exact hk2 h1
        rw [aset_of_not_mem _ hkapp, aset_of_not_mem _ hk2, List.append_assoc]
        refine ih _ _ ?_
        intro k hkm
        rw [List.map_append]
        intro hmem
        rcases List.mem_append.mp hmem with h1 | h1
        · exact hdisj k hkm h1
        · simp at h1
          exact hk1 (h1 ▸ hkm)

theorem dedupFrom_of_nodup : ∀ (l : List Row) (m : List (String × Row)),
    (m.map Prod.fst ++ l.map rowKey).Nodup → dedupFrom m l = m ++ pairKR l := by
  intro l
  induction l with
  | nil =>
    intro m _
    rw [dedupFrom_nil]
    simp [pairKR]
  | cons r l ih =>
    intro m hn
    rw [dedupFrom_cons]
    have hdisj : (m.map Prod.fst).Disjoint (rowKey r :: l.map rowKey) :=
      ((List.nodup_append.mp (by simpa using hn)).2.2)
    have hk : rowKey r ∉ m.map Prod.fst :=
      fun hmem => hdisj hmem (List.mem_cons_self _ _)
    rw [aset_of_not_mem _ hk]
    have hn2 : (((m ++ [(rowKey r, r)]).map Prod.fst) ++ l.map rowKey).Nodup := by
      rw [List.map_append]
      simp only [List.map_cons, List.map_nil]
      rw [List.append_assoc]
      simpa using hn
    rw [ih _ hn2, List.append_assoc]
    rfl

theorem pairKR_keys (l : List Row) : (pairKR l).map Prod.fst = l.map rowKey := by
  unfold pairKR
  rw [List.map_map]
  rfl

theorem mergeStore_mem_iff (S B : List Row) (c : Int) (r : Row) :
    r ∈ mergeStore S B c ↔
      r ∈ (dedupFrom [] (S ++ B)).map Prod.snd ∧ c ≤ r.timestamp := by
  unfold mergeStore
  rw [List.mem_insertionSort, List.mem_filter, decide_eq_true_eq]

theorem mergeStore_sorted (S B : List Row) (c : Int) :
    List.Sorted tsLE (mergeStore S B c) := by
  unfold mergeStore
  exact List.sorted_insertionSort tsLE _

theorem mergeStore_keys_nodup (S B : List Row) (c : Int) :
    ((mergeStore S B c).map rowKey).Nodup := by
  have hwf : ∀ p ∈ dedupFrom [] (S ++ B), p.1 = rowKey p.2 :=
    dedup_wf _ _ (by intro p hp; simp at hp)
  have h1 : (((dedupFrom [] (S ++ B)).map Prod.snd).map rowKey).Nodup := by
    rw [List.map_map]
    have he : (dedupFrom [] (S ++ B)).map (rowKey ∘ Prod.snd)
        = (dedupFrom [] (S ++ B)).map Prod.fst :=
      List.map_congr_left fun p hp => (hwf p hp).symm
    rw [he]
    exact dedup_keys_nodup _ _ (by simp)
  have h2 : List.Sublist
      ((((dedupFrom [] (S ++ B)).map Prod.snd).filter
        (fun r => decide (c ≤ r.timestamp))).map rowKey)
      (((dedupFrom [] (S ++ B)).map Prod.snd).map rowKey) :=
    (List.filter_sublist _).map rowKey
  have h3 := h1.sublist h2
  unfold mergeStore
  have h4 := (List.perm_insertionSort tsLE
    (((dedupFrom [] (S ++ B)).map Prod.snd).filter
      (fun r => decide (c ≤ r.timestamp)))).map rowKey
  exact h4.nodup_iff.mpr h3

theorem mergeStore_lastK (S B : List Row) (c : Int) :
    ∀ r ∈ mergeStore S B c, lastK B (rowKey r) r = r := by
  intro r hr
  rcases (mergeStore_mem_iff S B c r).mp hr with ⟨hval, _⟩
  rcases List.mem_map.mp hval with ⟨p, hp, hpr⟩
  have hwf : p.1 = rowKey p.2 := dedup_wf _ _ (by intro q hq; simp at hq) p hp
  have hfl : lastK (S ++ B) p.1 p.2 = p.2 := dedup_lastK _ _ p hp
  rw [lastK_append] at hfl
  subst hpr
  rw [hwf] at hfl
  by_cases hocc : ∃ x ∈ B, rowKey x = rowKey p.2
  · calc lastK B (rowKey p.2) p.2
        = lastK B (rowKey p.2) (lastK S (rowKey p.2) p.2) :=
          lastK_default_irrel hocc _ _
      _ = p.2 := hfl
  · push_neg at hocc
    exact lastK_no_occ hocc p.2

/-- Claim C2 core: the merge-and-prune of `setIaq` is idempotent in the
batch. -/
theorem mergeStore_idem_aux (S B : List Row) (c : Int) :
    mergeStore (mergeStore S B c) B c = mergeStore S B c := by
  have hRnodup := mergeStore_keys_nodup S B c
  have hRsorted := mergeStore_sorted S B c
  have hRlast := mergeStore_lastK S B c
  have hRcut : ∀ r ∈ mergeStore S B c, c ≤ r.timestamp :=
    fun r hr => ((mergeStore_mem_iff S B c r).mp hr).2
  set R := mergeStore S B c with hRdef
  -- dedup of R ++ B decomposes into R's entries (unchanged) plus junk
  have hsplit : dedupFrom [] (R ++ B) =
      updKR (pairKR R) B ++
        dedupFrom [] (B.filter
          (fun r => decide (rowKey r ∉ (pairKR R).map Prod.fst))) := by
    rw [dedupFrom_append]
    have hnod : (([] : List (String × Row)).map Prod.fst ++ R.map rowKey).Nodup := by
      simpa using hRnodup
    rw [dedupFrom_of_nodup R [] hnod, List.nil_append]
    have := dedupFrom_split B (pairKR R) [] (by simp)
    rw [List.append_nil] at this
    exact this
  have hupd : updKR (pairKR R) B = pairKR R := by
    unfold updKR pairKR
    rw [List.map_map]
    refine List.map_congr_left fun r hr => ?_
    simp only [Function.comp]
    rw [hRlast r hr]
  have hjunk : ∀ v ∈ (dedupFrom [] (B.filter
      (fun r => decide (rowKey r ∉ (pairKR R).map Prod.fst)))).map Prod.snd,
      v.timestamp < c := by
    intro v hv
    rcases List.mem_map.mp hv with ⟨p, hp, hpv⟩
    subst hpv
    have hvB : p.2 ∈ B.filter (fun r => decide (rowKey r ∉ (pairKR R).map Prod.fst)) := by
      rcases dedup_val_mem _ _ p hp with h1 | h1
      · simp at h1
      · exact h1
    have hvB2 := List.mem_filter.mp hvB
    have hkey : rowKey p.2 ∉ R.map rowKey := by
      have hd := of_decide_eq_true hvB2.2
      rw [pairKR_keys] at hd
      exact hd
    have hwf2 : p.1 = rowKey p.2 :=
      dedup_wf _ _ (by intro q hq; simp at hq) p hp
    have hlast2 : lastK (B.filter
        (fun r => decide (rowKey r ∉ (pairKR R).map Prod.fst))) p.1 p.2 = p.2 :=
      dedup_lastK _ _ p hp
    have hhyp : ∀ x ∈ B, rowKey x = p.1 →
        (fun r => decide (rowKey r ∉ (pairKR R).map Prod.fst)) x = true := by
      intro x _ hxk
      refine decide_eq_true ?_
      rw [pairKR_keys, hxk, hwf2]
      exact hkey
    have hlastB : lastK B p.1 p.2 = p.2 := by
      rw [← lastK_filter hhyp p.2]
      exact hlast2
    have hlastB2 : lastK B (rowKey p.2) p.2 = p.2 := by
      rw [← hwf2]
      exact hlastB
    -- the dedup of S ++ B holds exactly this row at this key
    have hkD : rowKey p.2 ∈ (dedupFrom [] (S ++ B)).map Prod.fst :=
      mem_keys_dedupFrom _ _ p.2 (List.mem_append_right S hvB2.1)
    rcases List.mem_map.mp hkD with ⟨q, hq, hqk⟩
    have hflq : lastK (S ++ B) q.1 q.2 = q.2 := dedup_lastK _ _ q hq
    have hocc : ∃ x ∈ B, rowKey x = rowKey p.2 := ⟨p.2, hvB2.1, rfl⟩
    have hq2 : q.2 = p.2 := by
      calc q.2 = lastK (S ++ B) q.1 q.2 := hflq.symm
        _ = lastK B q.1 (lastK S q.1 q.2) := lastK_append S B q.1 q.2
        _ = lastK B (rowKey p.2) (lastK S (rowKey p.2) q.2) := by rw [hqk]
        _ = lastK B (rowKey p.2) p.2 := lastK_default_irrel hocc _ _
        _ = p.2 := hlastB2
    by_contra hlt
    push_neg at hlt
    apply hkey
    have hvin : p.2 ∈ mergeStore S B c := by
      rw [mergeStore_mem_iff]
      constructor
      · exact List.mem_map.mpr ⟨q, hq, hq2⟩
      · exact hlt
    exact List.mem_map.mpr ⟨p.2, hvin, rfl⟩
  -- assemble
  calc mergeStore R B c
      = List.insertionSort tsLE
          (((dedupFrom [] (R ++ B)).map Prod.snd).filter
            (fun r => decide (c ≤ r.timestamp))) := rfl
    _ = R := by
        rw [hsplit, hupd, List.map_append, List.filter_append]
        have hmapR : (pairKR R).map Prod.snd = R := by
          unfold pairKR
          rw [List.map_map]
          exact List.map_id R
        rw [hmapR]
        rw [List.filter_eq_self.mpr
          (fun r hr => decide_eq_true (hRcut r hr))]
        rw [List.filter_eq_nil_iff.mpr
          (fun v hv hdec => absurd (of_decide_eq_true hdec)
            (not_le.mpr (hjunk v hv)))]
        rw [List.append_nil]
        exact hRsorted.insertionSort_eq

/-! ### Mode segmenter invariants -/

/-- Adjacency relation of the band non-overlap invariant. -/
def bandRel (b1 b2 : Band) : Prop := b1.toTs ≤ b2.fromTs

theorem bandsGo_nil_open (we m s : Int) :
    bandsGo we [] (some m) (some s) = [bandOf s we m] := rfl

theorem bandsGo_nil_closed (we : Int) : bandsGo we [] none none = [] := rfl

theorem bandsGo_cons_unclass_open {r : Row} (we : Int) (rest : List Row)
    (m0 s : Int) (h : r.mode = none) :
    bandsGo we (r :: rest) (some m0) (some s) =
      bandOf s r.timestamp m0 :: bandsGo we rest none none := by
  simp [bandsGo, h]

theorem bandsGo_cons_unclass_closed {r : Row} (we : Int) (rest : List Row)
    (h : r.mode = none) :
    bandsGo we (r :: rest) none none = bandsGo we rest none none := by
  simp [bandsGo, h]

theorem bandsGo_cons_nocolor_open {r : Row} {m : Int} (we : Int) (rest : List Row)
    (m0 s : Int) (h : r.mode = some m) (hc : (modeColor m).isNone = true) :
    bandsGo we (r :: rest) (some m0) (some s) =
      bandOf s r.timestamp m0 :: bandsGo we rest none none := by
  simp [bandsGo, h, hc]

theorem bandsGo_cons_nocolor_closed {r : Row} {m : Int} (we : Int) (rest : List Row)
    (h : r.mode = some m) (hc : (modeColor m).isNone = true) :
    bandsGo we (r :: rest) none none = bandsGo we rest none none := by
  simp [bandsGo, h, hc]

theorem bandsGo_cons_class_closed {r : Row} {m : Int} (we : Int) (rest : List Row)
    (h : r.mode = some m) (hc : (modeColor m).isNone = false) :
    bandsGo we (r :: rest) none none =
      bandsGo we rest (some m) (some r.timestamp) := by
  simp [bandsGo, h, hc]

theorem bandsGo_cons_class_ne {r : Row} {m : Int} (we : Int) (rest : List Row)
    (m0 s : Int) (h : r.mode = some m) (hc : (modeColor m).isNone = false)
    (hne : m ≠ m0) :
    bandsGo we (r :: rest) (some m0) (some s) =
      bandOf s r.timestamp m0 :: bandsGo we rest (some m) (some r.timestamp) := by
  simp [bandsGo, h, hc, hne]

theorem bandsGo_cons_class_eq {r : Row} {m : Int} (we : Int) (rest : List Row)
    (m0 s : Int) (h : r.mode = some m) (hc : (modeColor m).isNone = false)
    (heq : m = m0) :
    bandsGo we (r :: rest) (some m0) (some s) =
      bandsGo we rest (some m0) (some s) := by
  subst heq
  simp [bandsGo, h, hc]

theorem bandsGo_chain (we : Int) :
    ∀ rows : List Row, List.Sorted tsLE rows →
    ((∀ (m s : Int), (∀ r ∈ rows, s ≤ r.timestamp) →
        List.Chain' bandRel (bandsGo we rows (some m) (some s)) ∧
        ∀ b, (bandsGo we rows (some m) (some s)).head? = some b → b.fromTs = s) ∧
      (List.Chain' bandRel (bandsGo we rows none none) ∧
        ∀ b, (bandsGo we rows none none).head? = some b →
          ∃ r ∈ rows, b.fromTs = r.timestamp)) := by
  intro rows
  induction rows with
  | nil =>
    intro _
    refine ⟨fun m s _ => ⟨?_, ?_⟩, ?_, ?_⟩
    · rw [bandsGo_nil_open]
      exact List.chain'_singleton _
    · intro b hb
      rw [bandsGo_nil_open] at hb
      have hbe : bandOf s we m = b := by simpa using hb
      exact hbe ▸ rfl
    · rw [bandsGo_nil_closed]
      exact List.chain'_nil
    · intro b hb
      rw [bandsGo_nil_closed] at hb
      simp at hb
  | cons r rest ih =>
    intro hsorted
    rw [List.sorted_cons] at hsorted
    obtain ⟨hr_le, hsorted2⟩ := hsorted
    have IH := ih hsorted2
    have hopen_start : ∀ x ∈ rest, r.timestamp ≤ x.timestamp := hr_le
    have hcons_to_tail : ∀ (s0 m1 : Int) (b : Band),
        (bandsGo we rest none none).head? = some b →
        bandRel (bandOf s0 r.timestamp m1) b := by
      intro s0 m1 b hb
      rcases IH.2.2 b hb with ⟨x, hx, hbx⟩
      unfold bandRel bandOf
      rw [hbx]
      exact hopen_start x hx
    rcases hm : r.mode with _ | m
    · refine ⟨fun m0 s hs => ⟨?_, ?_⟩, ?_, ?_⟩
      · rw [bandsGo_cons_unclass_open we rest m0 s hm, List.chain'_cons']
        exact ⟨fun b hb => hcons_to_tail s m0 b hb, IH.2.1⟩
      · intro b hb
        rw [bandsGo_cons_unclass_open we rest m0 s hm] at hb
        have hbe : bandOf s r.timestamp m0 = b := by simpa using hb
        exact hbe ▸ rfl
      · rw [bandsGo_cons_unclass_closed we rest hm]
        exact IH.2.1
      · intro b hb
        rw [bandsGo_cons_unclass_closed we rest hm] at hb
        rcases IH.2.2 b hb with ⟨x, hx, hbx⟩
        exact ⟨x, List.mem_cons_of_mem r hx, hbx⟩
    · by_cases hcol : (modeColor m).isNone = true
      · refine ⟨fun m0 s hs => ⟨?_, ?_⟩, ?_, ?_⟩
        · rw [bandsGo_cons_nocolor_open we rest m0 s hm hcol, List.chain'_cons']
          exact ⟨fun b hb => hcons_to_tail s m0 b hb, IH.2.1⟩
        · intro b hb
          rw [bandsGo_cons_nocolor_open we rest m0 s hm hcol] at hb
          have hbe : bandOf s r.timestamp m0 = b := by simpa using hb
          exact hbe ▸ rfl
        · rw [bandsGo_cons_nocolor_closed we rest hm hcol]
          exact IH.2.1
        · intro b hb
          rw [bandsGo_cons_nocolor_closed we rest hm hcol] at hb
          rcases IH.2.2 b hb with ⟨x, hx, hbx⟩
          exact ⟨x, List.mem_cons_of_mem r hx, hbx⟩
      · rw [Bool.not_eq_true] at hcol
        refine ⟨fun m0 s hs => ?_, ?_, ?_⟩
        · by_cases hmm : m = m0
          · rw [bandsGo_cons_class_eq we rest m0 s hm hcol hmm]
            exact IH.1 m0 s fun x hx => hs x (List.mem_cons_of_mem r hx)
          · constructor
            · rw [bandsGo_cons_class_ne we rest m0 s hm hcol hmm, List.chain'_cons']
              refine ⟨?_, (IH.1 m r.timestamp hopen_start).1⟩
              intro b hb
              have hfrom := (IH.1 m r.timestamp hopen_start).2 b hb
              unfold bandRel bandOf
              rw [hfrom]
            · intro b hb
              rw [bandsGo_cons_class_ne we rest m0 s hm hcol hmm] at hb
              have hbe : bandOf s r.timestamp m0 = b := by simpa using hb
              exact hbe ▸ rfl
        · rw [bandsGo_cons_class_closed we rest hm hcol]
          exact (IH.1 m r.timestamp hopen_start).1
        · intro b hb
          rw [bandsGo_cons_class_closed we rest hm hcol] at hb
          exact ⟨r, List.mem_cons_self r rest,
            (IH.1 m r.timestamp hopen_start).2 b hb⟩

theorem buildModeBands_chain (rows : List Row) (ws we : Int) :
    List.Chain' bandRel (buildModeBands rows ws we) := by
  unfold buildModeBands
  exact (bandsGo_chain we _ (List.sorted_insertionSort tsLE _)).2.1

/-- A control-channel test row (only the fields the segmenter inspects are
populated). -/
def iaqRow (i : Option String) (sid : String) (t : Int) (c : Option Rat)
    (m : Option Int) : Row :=
  { id := i, sensor_id := sid, timestamp := t, co2 := c, temperature := none,
    temp := none, humidity := none, mode := m }

theorem modeColor_one_isNone : (modeColor 1).isNone = false := rfl

theorem modeColor_two_isNone : (modeColor 2).isNone = false := rfl

theorem modeColor_three_isNone : (modeColor 3).isNone = false := rfl

theorem terminal_flush_scenario (ws we t0 t1 t2 : Int)
    (h0 : ws ≤ t0) (h01 : t0 < t1) (h12 : t1 < t2) (h2e : t2 < we) :
    buildModeBands
      [iaqRow none "interlock_4c" t0 none (some 1),
       iaqRow none "interlock_4c" t1 none (some 1),
       iaqRow none "interlock_4c" t2 none (some 3)] ws we =
    [bandOf t0 t2 1, bandOf t2 we 3] := by
  unfold buildModeBands
  have hs : ∀ a ∈ [iaqRow none "interlock_4c" t0 none (some 1),
      iaqRow none "interlock_4c" t1 none (some 1),
      iaqRow none "interlock_4c" t2 none (some 3)],
      (fun r : Row => decide (r.sensor_id = "interlock_4c" ∨ r.sensor_id = "4")) a = true := by
    intro a ha
    simp only [List.mem_cons, List.not_mem_nil, or_false] at ha
    rcases ha with rfl | rfl | rfl <;> simp [iaqRow]
  have hw : ∀ a ∈ [iaqRow none "interlock_4c" t0 none (some 1),
      iaqRow none "interlock_4c" t1 none (some 1),
      iaqRow none "interlock_4c" t2 none (some 3)],
      (fun r : Row => decide (ws ≤ r.timestamp ∧ r.timestamp ≤ we)) a = true := by
    intro a ha
    simp only [List.mem_cons, List.not_mem_nil, or_false] at ha
    rcases ha with rfl | rfl | rfl <;> simp only [iaqRow, decide_eq_true_eq] <;>
      constructor <;> omega
  rw [List.filter_eq_self.mpr hs, List.filter_eq_self.mpr hw]
  rw [List.Sorted.insertionSort_eq
    (by simp [List.sorted_cons, tsLE, iaqRow]; omega)]
  rw [bandsGo_cons_class_closed we _ rfl modeColor_one_isNone]
  rw [bandsGo_cons_class_eq we _ 1 _ rfl modeColor_one_isNone rfl]
  rw [bandsGo_cons_class_ne we _ 1 _ rfl modeColor_three_isNone (by decide)]
  rw [bandsGo_nil_open]
  rfl

theorem modeColor_out_of_domain (m : Int) (h : m < 0 ∨ 5 < m) :
    modeColor m = none := by
  unfold modeColor
  rw [if_neg (by omega), if_neg (by omega), if_neg (by omega),
    if_neg (by omega), if_neg (by omega), if_neg (by omega)]

theorem bandsGo_unclassified_closes (we : Int) (r : Row) (rest : List Row)
    (m0 s : Int)
    (h : r.mode = none ∨ ∃ mv, r.mode = some mv ∧ modeColor mv = none) :
    bandsGo we (r :: rest) (some m0) (some s) =
      bandOf s r.timestamp m0 :: bandsGo we rest none none := by
  rcases h with h | ⟨mv, hmv, hc⟩
  · exact bandsGo_cons_unclass_open we rest m0 s h
  · exact bandsGo_cons_nocolor_open we rest m0 s hmv (by rw [hc]; rfl)

theorem unclassified_scenario (ws we t0 t1 : Int)
    (h0 : ws ≤ t0) (h01 : t0 < t1) (h1e : t1 ≤ we) :
    buildModeBands
      [iaqRow none "interlock_4c" t0 none (some 2),
       iaqRow none "interlock_4c" t1 none none] ws we =
    [bandOf t0 t1 2] := by
  unfold buildModeBands
  have hs : ∀ a ∈ [iaqRow none "interlock_4c" t0 none (some 2),
      iaqRow none "interlock_4c" t1 none none],
      (fun r : Row => decide (r.sensor_id = "interlock_4c" ∨ r.sensor_id = "4")) a = true := by
    intro a ha
    simp only [List.mem_cons, List.not_mem_nil, or_false] at ha
    rcases ha with rfl | rfl <;> simp [iaqRow]
  have hw : ∀ a ∈ [iaqRow none "interlock_4c" t0 none (some 2),
      iaqRow none "interlock_4c" t1 none none],
      (fun r : Row => decide (ws ≤ r.timestamp ∧ r.timestamp ≤ we)) a = true := by
    intro a ha
    simp only [List.mem_cons, List.not_mem_nil, or_false] at ha
    rcases ha with rfl | rfl <;> simp only [iaqRow, decide_eq_true_eq] <;>
      constructor <;> omega
  rw [List.filter_eq_self.mpr hs, List.filter_eq_self.mpr hw]
  rw [List.Sorted.insertionSort_eq
    (by simp [List.sorted_cons, tsLE, iaqRow]; omega)]
  rw [bandsGo_cons_class_closed we _ rfl modeColor_two_isNone]
  rw [bandsGo_cons_unclass_open we _ 2 _ rfl]
  rw [bandsGo_nil_closed]
  rfl

/-! ### Series builder: bucket characterization and gap preservation -/

/-- Bucket contents read back out of the `bySensor` map (the empty list both
for an absent key and for an empty bucket; the loop never stores an empty
bucket for a key it created). -/
def blookup (m : List (String × List Point)) (c : String) : List Point :=
  (alookup m c).getD []

/-- The in-window points of channel `c` that have a metric value, in row
order: exactly what the `buildSeries` loop pushes onto `c`'s bucket. -/
def channelPts (rows : List Row) (ws we : Int) (pickY : Row → Option Rat)
    (c : String) : List Point :=
  rows.filterMap (fun r =>
    if r.sensor_id = c ∧ ws ≤ r.timestamp ∧ r.timestamp ≤ we then
      (pickY r).map (fun y => { x := r.timestamp, y := y })
    else none)

theorem blookup_bucketPush_self (m : List (String × List Point)) (k : String)
    (p : Point) : blookup (bucketPush m k p) k = blookup m k ++ [p] := by
  unfold bucketPush blookup
  rw [alookup_aset_self]
  rfl

theorem blookup_bucketPush_ne (m : List (String × List Point)) (k c : String)
    (p : Point) (h : c ≠ k) : blookup (bucketPush m k p) c = blookup m c := by
  unfold bucketPush blookup
  rw [alookup_aset_ne _ _ _ _ h]

theorem channelPts_nil (ws we : Int) (pickY : Row → Option Rat) (c : String) :
    channelPts [] ws we pickY c = [] := rfl

theorem channelPts_cons_none (r : Row) (rows : List Row) (ws we : Int)
    (pickY : Row → Option Rat) (c : String)
    (h : (if r.sensor_id = c ∧ ws ≤ r.timestamp ∧ r.timestamp ≤ we then
        (pickY r).map (fun y => ({ x := r.timestamp, y := y } : Point))
      else none) = none) :
    channelPts (r :: rows) ws we pickY c = channelPts rows ws we pickY c := by
  unfold channelPts
  rw [List.filterMap_cons, h]

theorem channelPts_cons_some (r : Row) (rows : List Row) (ws we : Int)
    (pickY : Row → Option Rat) (c : String) (p : Point)
    (h : (if r.sensor_id = c ∧ ws ≤ r.timestamp ∧ r.timestamp ≤ we then
        (pickY r).map (fun y => ({ x := r.timestamp, y := y } : Point))
      else none) = some p) :
    channelPts (r :: rows) ws we pickY c = p :: channelPts rows ws we pickY c := by
  unfold channelPts
  rw [List.filterMap_cons, h]

theorem buckets_loop_char (ws we : Int) (pickY : Row → Option Rat) (c : String) :
    ∀ (rows : List Row) (m : List (String × List Point)),
    blookup (rows.foldl (bucketStep ws we pickY) m) c =
      blookup m c ++ channelPts rows ws we pickY c := by
  intro rows
  induction rows with
  | nil =>
    intro m
    rw [channelPts_nil, List.append_nil]
    rfl
  | cons r rows ih =>
    intro m
    rw [List.foldl_cons, ih]
    by_cases hwin : r.timestamp < ws ∨ we < r.timestamp
    · have hstep : bucketStep ws we pickY m r = m := by
        unfold bucketStep
        rw [if_pos hwin]
      have hcond : ¬(r.sensor_id = c ∧ ws ≤ r.timestamp ∧ r.timestamp ≤ we) := by
        intro hc
        rcases hc with ⟨_, h1, h2⟩
        rcases hwin with h | h <;> omega
      rw [hstep, channelPts_cons_none r rows ws we pickY c (if_neg hcond)]
    · have hwin2 : ws ≤ r.timestamp ∧ r.timestamp ≤ we := by
        push_neg at hwin
        exact ⟨hwin.1, hwin.2⟩
      rcases hpick : pickY r with _ | y
      · have hstep : bucketStep ws we pickY m r = m := by
          unfold bucketStep
          rw [if_neg hwin, hpick]
        have hf : (if r.sensor_id = c ∧ ws ≤ r.timestamp ∧ r.timestamp ≤ we then
            (pickY r).map (fun y => ({ x := r.timestamp, y := y } : Point))
          else none) = none := by
          by_cases hsid : r.sensor_id = c
          · rw [if_pos ⟨hsid, hwin2⟩, hpick]
            rfl
          · exact if_neg (fun hc => hsid hc.1)
        rw [hstep, channelPts_cons_none r rows ws we pickY c hf]
      · have hstep : bucketStep ws we pickY m r =
            bucketPush m r.sensor_id { x := r.timestamp, y := y } := by
          unfold bucketStep
          rw [if_neg hwin, hpick]
        by_cases hsid : r.sensor_id = c
        · have hf : (if r.sensor_id = c ∧ ws ≤ r.timestamp ∧ r.timestamp ≤ we then
              (pickY r).map (fun y => ({ x := r.timestamp, y := y } : Point))
            else none) = some { x := r.timestamp, y := y } := by
            rw [if_pos ⟨hsid, hwin2⟩, hpick]
            rfl
          rw [hstep, channelPts_cons_some r rows ws we pickY c _ hf, hsid,
            blookup_bucketPush_self]
          rw [List.append_assoc]
          rfl
        · have hf : (if r.sensor_id = c ∧ ws ≤ r.timestamp ∧ r.timestamp ≤ we then
              (pickY r).map (fun y => ({ x := r.timestamp, y := y } : Point))
            else none) = none := if_neg (fun hc => hsid hc.1)
          rw [hstep, channelPts_cons_none r rows ws we pickY c hf,
            blookup_bucketPush_ne _ _ _ _ (fun hc => hsid hc.symm)]

theorem buckets_keys_nodup (ws we : Int) (pickY : Row → Option Rat) :
    ∀ (rows : List Row) (m : List (String × List Point)),
    (m.map Prod.fst).Nodup →
    ((rows.foldl (bucketStep ws we pickY) m).map Prod.fst).Nodup := by
  intro rows
  induction rows with
  | nil => intro m hm; exact hm
  | cons r rows ih =>
    intro m hm
    rw [List.foldl_cons]
    refine ih _ ?_
    unfold bucketStep
    by_cases hwin : r.timestamp < ws ∨ we < r.timestamp
    · rw [if_pos hwin]; exact hm
    · rw [if_neg hwin]
      rcases hpick : pickY r with _ | y
      · exact hm
      · exact aset_keys_nodup _ hm

theorem buildBuckets_char (rows : List Row) (ws we : Int)
    (pickY : Row → Option Rat) (c : String) :
    blookup (buildBuckets rows ws we pickY) c = channelPts rows ws we pickY c := by
  unfold buildBuckets
  rw [buckets_loop_char]
  rfl

theorem buildBuckets_mem_char {rows : List Row} {ws we : Int}
    {pickY : Row → Option Rat} {c : String} {pts : List Point}
    (h : (c, pts) ∈ buildBuckets rows ws we pickY) :
    pts = channelPts rows ws we pickY c := by
  have hnd : ((buildBuckets rows ws we pickY).map Prod.fst).Nodup :=
    buckets_keys_nodup ws we pickY rows [] (by simp)
  have halk : alookup (buildBuckets rows ws we pickY) c = some pts :=
    alookup_of_mem_nodup h hnd
  have hchar := buildBuckets_char rows ws we pickY c
  rw [blookup, halk, Option.getD_some] at hchar
  exact hchar

theorem channelPts_mem {rows : List Row} {ws we : Int}
    {pickY : Row → Option Rat} {c : String} {p : Point}
    (h : p ∈ channelPts rows ws we pickY c) :
    ∃ r ∈ rows, r.sensor_id = c ∧ ws ≤ r.timestamp ∧ r.timestamp ≤ we ∧
      p.x = r.timestamp ∧ pickY r = some p.y := by
  unfold channelPts at h
  rcases List.mem_filterMap.mp h with ⟨r, hr, hf⟩
  by_cases hc : r.sensor_id = c ∧ ws ≤ r.timestamp ∧ r.timestamp ≤ we
  · rw [if_pos hc] at hf
    rcases Option.map_eq_some'.mp hf with ⟨y, hy, hp⟩
    exact ⟨r, hr, hc.1, hc.2.1, hc.2.2, by rw [← hp], by rw [hy, ← hp]⟩
  · rw [if_neg hc] at hf
    simp at hf

/-- Claim C9 core: a reading whose metric value is absent contributes no
point at its timestamp, while valued in-window readings always contribute
their point to the channel's (sorted) series. -/
theorem buildSeries_gap_aux (rows : List Row) (ws we : Int)
    (pickY : Row → Option Rat) (sensorLabel : String → String) (c : String) (t : Int)
    (hnone : ∀ r ∈ rows, r.sensor_id = c → r.timestamp = t → pickY r = none) :
    (∀ pts, (c, pts) ∈ buildBuckets rows ws we pickY →
      ((sensorLabel c, pts.insertionSort ptLE) ∈ buildSeries rows ws we pickY sensorLabel ∧
        ∀ p ∈ pts.insertionSort ptLE, p.x ≠ t)) ∧
    (∀ r ∈ rows, r.sensor_id = c → ws ≤ r.timestamp → r.timestamp ≤ we →
      ∀ v, pickY r = some v →
        ∃ pts, (c, pts) ∈ buildBuckets rows ws we pickY ∧
          ({ x := r.timestamp, y := v } : Point) ∈ pts.insertionSort ptLE) := by
  constructor
  · intro pts hmem
    constructor
    · unfold buildSeries
      exact List.mem_map.mpr ⟨(c, pts), hmem, rfl⟩
    · intro p hp hpx
      have hp2 : p ∈ pts := (List.mem_insertionSort ptLE).mp hp
      rw [buildBuckets_mem_char hmem] at hp2
      rcases channelPts_mem hp2 with ⟨r, hr, hsid, _, _, hx, hy⟩
      have : pickY r = none := hnone r hr hsid (by rw [← hx, hpx])
      rw [this] at hy
      exact Option.noConfusion hy
  · intro r hr hsid hws hwe v hv
    have hpt : ({ x := r.timestamp, y := v } : Point) ∈
        channelPts rows ws we pickY c := by
      unfold channelPts
      refine List.mem_filterMap.mpr ⟨r, hr, ?_⟩
      rw [if_pos ⟨hsid, hws, hwe⟩, hv]
      rfl
    rcases halk : alookup (buildBuckets rows ws we pickY) c with _ | pts
    · exfalso
      have hchar := buildBuckets_char rows ws we pickY c
      rw [blookup, halk, Option.getD_none] at hchar
      rw [← hchar] at hpt
      simp at hpt
    · have hchar := buildBuckets_char rows ws we pickY c
      rw [blookup, halk, Option.getD_some] at hchar
      refine ⟨pts, mem_of_alookup halk, ?_⟩
      rw [(List.mem_insertionSort ptLE), hchar]
      exact hpt

/-! ### Latest-value extractor theory -/

/-- The projection of the `getLastestIAQData` loop onto a single target
channel. -/
def latestFoldC (c : String) (s : Snapshot) (rows : List Row) : Snapshot :=
  rows.foldl (fun s el =>
    if el.sensor_id = c ∧ s.timestamp.getD 0 < el.timestamp then
      snapOf c el
    else s) s

theorem latestFoldC_nil (c : String) (s : Snapshot) : latestFoldC c s [] = s := rfl

theorem latestFoldC_cons (c : String) (s : Snapshot) (el : Row) (rows : List Row) :
    latestFoldC c s (el :: rows) =
      latestFoldC c
        (if el.sensor_id = c ∧ s.timestamp.getD 0 < el.timestamp then
          snapOf c el
        else s) rows := rfl

theorem latestFoldC_append (c : String) (s : Snapshot) (l₁ l₂ : List Row) :
    latestFoldC c s (l₁ ++ l₂) = latestFoldC c (latestFoldC c s l₁) l₂ :=
  List.foldl_append _ _ _ _

theorem alookup_init (c : String) (hc : c ∈ targetSensors) :
    alookup initLatest c = some (fallbackFor c) := by
  have hc2 : c = "before_scrub" ∨ c = "after_scrub" ∨ c = "interlock_4c" := by
    simpa [targetSensors] using hc
  rcases hc2 with rfl | rfl | rfl <;> rfl

theorem latestStep_other (m : List (String × Snapshot)) (el : Row) (c : String)
    (hne : el.sensor_id ≠ c) :
    alookup (latestStep m el) c = alookup m c := by
  unfold latestStep
  split
  · split
    · exact alookup_aset_ne _ _ _ _ (Ne.symm hne)
    · rfl
  · rfl

theorem latestStep_same (m : List (String × Snapshot)) (el : Row) (c : String)
    (s : Snapshot) (hc : c ∈ targetSensors) (hsid : el.sensor_id = c)
    (hm : alookup m c = some s) :
    latestStep m el =
      if s.timestamp.getD 0 < el.timestamp then aset m c (snapOf c el) else m := by
  unfold latestStep
  rw [hsid, if_pos hc, hm]
  unfold latestUpdate?
  by_cases hlt : s.timestamp.getD 0 < el.timestamp
  · rw [if_pos (by exact decide_eq_true hlt), if_pos hlt]
  · rw [if_neg (by simp [hlt]), if_neg hlt]

theorem latest_proj (c : String) (hc : c ∈ targetSensors) :
    ∀ (rows : List Row) (m : List (String × Snapshot)) (s : Snapshot),
    alookup m c = some s →
    alookup (rows.foldl latestStep m) c = some (latestFoldC c s rows) := by
  intro rows
  induction rows with
  | nil => intro m s hm; exact hm
  | cons el rows ih =>
    intro m s hm
    rw [List.foldl_cons, latestFoldC_cons]
    by_cases hsid : el.sensor_id = c
    · rw [latestStep_same m el c s hc hsid hm]
      by_cases hlt : s.timestamp.getD 0 < el.timestamp
      · rw [if_pos hlt, if_pos ⟨hsid, hlt⟩]
        exact ih _ _ (by rw [alookup_aset_self])
      · rw [if_neg hlt, if_neg (fun hco => hlt hco.2)]
        exact ih _ _ hm
    · rw [if_neg (fun hco => hsid hco.1)]
      refine ih _ _ ?_
      rw [latestStep_other m el c hsid]
      exact hm

theorem latestFoldC_const (c : String) :
    ∀ (rows : List Row) (s : Snapshot),
    (∀ el ∈ rows, el.sensor_id = c → el.timestamp ≤ s.timestamp.getD 0) →
    latestFoldC c s rows = s := by
  intro rows
  induction rows with
  | nil => intro s _; rfl
  | cons el rows ih =>
    intro s h
    rw [latestFoldC_cons,
      if_neg (fun hco => absurd (h el (List.mem_cons_self el rows) hco.1)
        (not_le.mpr hco.2))]
    exact ih s fun x hx => h x (List.mem_cons_of_mem el hx)

theorem latestFoldC_bound (c : String) (t : Int) :
    ∀ (rows : List Row) (s : Snapshot),
    s.timestamp.getD 0 < t →
    (∀ el ∈ rows, el.sensor_id = c → el.timestamp < t) →
    (latestFoldC c s rows).timestamp.getD 0 < t := by
  intro rows
  induction rows with
  | nil => intro s hs _; exact hs
  | cons el rows ih =>
    intro s hs h
    rw [latestFoldC_cons]
    by_cases hco : el.sensor_id = c ∧ s.timestamp.getD 0 < el.timestamp
    · rw [if_pos hco]
      exact ih _ (h el (List.mem_cons_self el rows) hco.1)
        fun x hx => h x (List.mem_cons_of_mem el hx)
    · rw [if_neg hco]
      exact ih _ hs fun x hx => h x (List.mem_cons_of_mem el hx)

/-- Claim C10 core: with strict-greater replacement, the first reading
holding the maximal timestamp wins a tie. -/
theorem latest_tie_aux (c : String) (pre mid post : List Row) (r r2 : Row)
    (t : Int) (hc : c ∈ targetSensors) (hr : r.sensor_id = c)
    (_hr2 : r2.sensor_id = c) (ht : r.timestamp = t) (_ht2 : r2.timestamp = t)
    (hpos : 0 < t)
    (hpre : ∀ x ∈ pre, x.sensor_id = c → x.timestamp < t)
    (hrest : ∀ x ∈ mid ++ r2 :: post, x.sensor_id = c → x.timestamp ≤ t) :
    alookup (getLastestIAQData (pre ++ r :: (mid ++ r2 :: post))) c =
      some (snapOf c r) := by
  unfold getLastestIAQData
  rw [latest_proj c hc _ _ _ (alookup_init c hc)]
  rw [latestFoldC_append, latestFoldC_cons]
  have hs1 : (latestFoldC c (fallbackFor c) pre).timestamp.getD 0 < t :=
    latestFoldC_bound c t pre (fallbackFor c) (by simpa [fallbackFor] using hpos) hpre
  rw [if_pos ⟨hr, by rw [ht]; exact hs1⟩]
  rw [latestFoldC_const c _ (snapOf c r) ?hle]
  case hle =>
    intro x hx hxc
    have : (snapOf c r).timestamp.getD 0 = r.timestamp := rfl
    rw [this, ht]
    exact hrest x hx hxc

/-- Claim C8 core (amended): a requested channel with no reading keeps its
fallback record. -/
theorem latest_fallback_aux (rows : List Row) (c : String)
    (hc : c ∈ targetSensors) (hnone : ∀ r ∈ rows, r.sensor_id ≠ c) :
    alookup (getLastestIAQData rows) c = some (fallbackFor c) := by
  unfold getLastestIAQData
  rw [latest_proj c hc _ _ _ (alookup_init c hc)]
  rw [latestFoldC_const c rows (fallbackFor c)
    (fun el hel hsid => absurd hsid (hnone el hel))]

/-- Claim C3 core (amended): rows on the legacy numeric channel `"4"` are
invisible to the latest-value extractor. -/
theorem latest_ignores_four_aux (rows₁ rows₂ : List Row) (x : Row)
    (hx : x.sensor_id = "4") :
    getLastestIAQData (rows₁ ++ x :: rows₂) =
      getLastestIAQData (rows₁ ++ rows₂) := by
  unfold getLastestIAQData
  rw [List.foldl_append, List.foldl_append, List.foldl_cons]
  have hstep : latestStep (rows₁.foldl latestStep initLatest) x =
      rows₁.foldl latestStep initLatest := by
    unfold latestStep
    rw [if_neg (by rw [hx]; simp [targetSensors])]
  rw [hstep]

theorem latest_alias_scenario (t1 t2 : Int) (hpos : 0 < t1) :
    alookup (getLastestIAQData
      [iaqRow none "interlock_4c" t1 none (some 2),
       iaqRow none "4" t2 none (some 3)]) "interlock_4c" =
      some (snapOf "interlock_4c" (iaqRow none "interlock_4c" t1 none (some 2))) := by
  unfold getLastestIAQData
  rw [List.foldl_cons, List.foldl_cons, List.foldl_nil]
  have hc : "interlock_4c" ∈ targetSensors := by simp [targetSensors]
  have h1 : latestStep initLatest (iaqRow none "interlock_4c" t1 none (some 2)) =
      aset initLatest "interlock_4c"
        (snapOf "interlock_4c" (iaqRow none "interlock_4c" t1 none (some 2))) := by
    rw [latestStep_same initLatest _ "interlock_4c" (fallbackFor "interlock_4c")
      hc rfl (alookup_init _ hc)]
    rw [if_pos (show (fallbackFor "interlock_4c").timestamp.getD 0 <
      (iaqRow none "interlock_4c" t1 none (some 2)).timestamp from hpos)]
  have h2 : latestStep (aset initLatest "interlock_4c"
      (snapOf "interlock_4c" (iaqRow none "interlock_4c" t1 none (some 2))))
      (iaqRow none "4" t2 none (some 3)) =
      aset initLatest "interlock_4c"
        (snapOf "interlock_4c" (iaqRow none "interlock_4c" t1 none (some 2))) := by
    unfold latestStep
    rw [if_neg (by simp [iaqRow, targetSensors])]
  rw [h1, h2, alookup_aset_self]

/-! ### Merge scenarios: the end-to-end batch and the output order -/

/-- The batch of the end-to-end scenario: two readings with id `"a"` on
`before_scrub` at `T - 1000`, co2 `500` then `520` in arrival order. -/
def c1Batch (T : Int) : List Row :=
  [iaqRow (some "a") "before_scrub" (T - 1000) (some 500) none,
   iaqRow (some "a") "before_scrub" (T - 1000) (some 520) none]

theorem c1_merge_eval (T : Int) :
    mergeStore [] (c1Batch T) (T - 1800000) =
      [iaqRow (some "a") "before_scrub" (T - 1000) (some 520) none] := by
  unfold mergeStore c1Batch
  rw [List.nil_append, dedupFrom_cons, dedupFrom_cons, dedupFrom_nil]
  have h1 : aset ([] : List (String × Row))
      (rowKey (iaqRow (some "a") "before_scrub" (T - 1000) (some 500) none))
      (iaqRow (some "a") "before_scrub" (T - 1000) (some 500) none) =
      [("a", iaqRow (some "a") "before_scrub" (T - 1000) (some 500) none)] := by
    rw [aset_of_not_mem _ (by simp)]
    rfl
  rw [h1]
  have h2 : aset [("a", iaqRow (some "a") "before_scrub" (T - 1000) (some 500) none)]
      (rowKey (iaqRow (some "a") "before_scrub" (T - 1000) (some 520) none))
      (iaqRow (some "a") "before_scrub" (T - 1000) (some 520) none) =
      [("a", iaqRow (some "a") "before_scrub" (T - 1000) (some 520) none)] := by
    unfold aset
    rw [if_pos (by simp [rowKey, iaqRow])]
    rfl
  rw [h2, List.map_cons, List.map_nil]
  show List.insertionSort tsLE
      (List.filter (fun r => decide (T - 1800000 ≤ r.timestamp))
        [iaqRow (some "a") "before_scrub" (T - 1000) (some 520) none]) =
    [iaqRow (some "a") "before_scrub" (T - 1000) (some 520) none]
  have hfil : List.filter (fun r : Row => decide (T - 1800000 ≤ r.timestamp))
      [iaqRow (some "a") "before_scrub" (T - 1000) (some 520) none] =
      [iaqRow (some "a") "before_scrub" (T - 1000) (some 520) none] := by
    refine List.filter_eq_self.mpr ?_
    intro a ha
    simp only [List.mem_cons, List.not_mem_nil, or_false] at ha
    subst ha
    exact decide_eq_true (show T - 1800000 ≤ T - 1000 by omega)
  rw [hfil]
  rfl

theorem c1_dashboard_eval (T : Int) :
    onSuccessStore [] (c1Batch T) (T - 1800000) =
      [iaqRow (some "a") "before_scrub" (T - 1000) (some (11328 / 25)) none] := by
  unfold onSuccessStore
  have hadj : (c1Batch T).map dashAdjust =
      [iaqRow (some "a") "before_scrub" (T - 1000) (some (10828 / 25)) none,
       iaqRow (some "a") "before_scrub" (T - 1000) (some (11328 / 25)) none] := by
    unfold c1Batch dashAdjust
    rw [List.map_cons, List.map_cons, List.map_nil,
      if_pos (show (iaqRow (some "a") "before_scrub" (T - 1000) (some 500) none).sensor_id
        = "before_scrub" from rfl),
      if_pos (show (iaqRow (some "a") "before_scrub" (T - 1000) (some 520) none).sensor_id
        = "before_scrub" from rfl)]
    unfold iaqRow
    norm_num
  rw [hadj]
  unfold mergeStore
  rw [List.nil_append, dedupFrom_cons, dedupFrom_cons, dedupFrom_nil]
  have h1 : aset ([] : List (String × Row))
      (rowKey (iaqRow (some "a") "before_scrub" (T - 1000) (some (10828 / 25)) none))
      (iaqRow (some "a") "before_scrub" (T - 1000) (some (10828 / 25)) none) =
      [("a", iaqRow (some "a") "before_scrub" (T - 1000) (some (10828 / 25)) none)] := by
    rw [aset_of_not_mem _ (by simp)]
    rfl
  rw [h1]
  have h2 : aset [("a", iaqRow (some "a") "before_scrub" (T - 1000) (some (10828 / 25)) none)]
      (rowKey (iaqRow (some "a") "before_scrub" (T - 1000) (some (11328 / 25)) none))
      (iaqRow (some "a") "before_scrub" (T - 1000) (some (11328 / 25)) none) =
      [("a", iaqRow (some "a") "before_scrub" (T - 1000) (some (11328 / 25)) none)] := by
    unfold aset
    rw [if_pos (by simp [rowKey, iaqRow])]
    rfl
  rw [h2, List.map_cons, List.map_nil]
  show List.insertionSort tsLE
      (List.filter (fun r => decide (T - 1800000 ≤ r.timestamp))
        [iaqRow (some "a") "before_scrub" (T - 1000) (some (11328 / 25)) none]) =
    [iaqRow (some "a") "before_scrub" (T - 1000) (some (11328 / 25)) none]
  have hfil : List.filter (fun r : Row => decide (T - 1800000 ≤ r.timestamp))
      [iaqRow (some "a") "before_scrub" (T - 1000) (some (11328 / 25)) none] =
      [iaqRow (some "a") "before_scrub" (T - 1000) (some (11328 / 25)) none] := by
    refine List.filter_eq_self.mpr ?_
    intro a ha
    simp only [List.mem_cons, List.not_mem_nil, or_false] at ha
    subst ha
    exact decide_eq_true (show T - 1800000 ≤ T - 1000 by omega)
  rw [hfil]
  rfl

/-- The ordering the spec claims for the merge output: ascending timestamp
with ties broken by the identity string. -/
def tsIdLex (a b : Row) : Prop :=
  a.timestamp < b.timestamp ∨ (a.timestamp = b.timestamp ∧ rowKey a ≤ rowKey b)

/-- Two readings with equal timestamps whose arrival order is opposite to
their identity order. -/
def c5RowB : Row := iaqRow (some "b") "s" 100 none none

def c5RowA : Row := iaqRow (some "a") "s" 100 none none

theorem c5_merge_result : mergeStore [] [c5RowB, c5RowA] 0 = [c5RowB, c5RowA] := by
  decide

theorem c5_not_id_sorted : ¬ List.Pairwise tsIdLex (mergeStore [] [c5RowB, c5RowA] 0) := by
  rw [c5_merge_result]
  intro hp
  rcases List.pairwise_cons.mp hp with ⟨h1, _⟩
  have h2 := h1 c5RowA (List.mem_cons_self _ _)
  rcases h2 with hlt | ⟨_, hle⟩
  · exact absurd hlt (by decide)
  · rw [show rowKey c5RowB = "b" from rfl, show rowKey c5RowA = "a" from rfl,
      String.le_iff_toList_le] at hle
    exact absurd hle (by decide)

/-! ### Claim theorems -/

/-- Claim C1, counterexample: with a 30-minute window and now `T` fixed at a
concrete epoch instant, the active dashboard store update applied to the
scenario batch retains exactly one reading for id `"a"`, but its co2 is
`11328/25 = 453.12` (the batch value `520` minus the `before_scrub`
adjustment `66.88`), not `520` as the claim states. -/
theorem claim_c1_counterexample :
    onSuccessStore [] (c1Batch 1700000000000) (1700000000000 - 1800000) =
      [iaqRow (some "a") "before_scrub" (1700000000000 - 1000)
        (some (11328 / 25)) none] ∧
    some ((11328 : Rat) / 25) ≠ some (520 : Rat) :=
  ⟨c1_dashboard_eval 1700000000000, by norm_num⟩

/-- Claim C1, amended: for every now `T`, merging the scenario batch into an
empty store with the 30-minute cutoff retains exactly one reading for id
`"a"`, the last duplicate in arrival order; through the active dashboard
handler its co2 is `453.12` because the `before_scrub` co2 is adjusted by
`-66.88` before the merge, while the bare merge-and-prune operation (the
alternate handler without the adjustment) retains co2 `520`. -/
theorem claim_c1_amended (T : Int) :
    onSuccessStore [] (c1Batch T) (T - 1800000) =
      [iaqRow (some "a") "before_scrub" (T - 1000) (some (11328 / 25)) none] ∧
    mergeStore [] (c1Batch T) (T - 1800000) =
      [iaqRow (some "a") "before_scrub" (T - 1000) (some 520) none] :=
  ⟨c1_dashboard_eval T, c1_merge_eval T⟩

/-- Claim C2: the merge-and-prune operation of `setIaq` is idempotent:
applying it twice with the same batch and cutoff equals applying it once. -/
theorem claim_c2_merge_idempotent (S B : List Row) (c : Int) :
    mergeStore (mergeStore S B c) B c = mergeStore S B c :=
  mergeStore_idem_aux S B c

/-- Claim C3, counterexample: with a retained reading on `"interlock_4c"` at
`t1 = 1000` and one on the legacy numeric channel `"4"` at `t2 = 2000 > t1`,
the latest-value extractor keeps the snapshot of the `t1` reading: channel
`"4"` is not unified with `"interlock_4c"` here, so the snapshot is not taken
from the reading at `t2`. -/
theorem claim_c3_counterexample :
    alookup (getLastestIAQData
      [iaqRow none "interlock_4c" 1000 none (some 2),
       iaqRow none "4" 2000 none (some 3)]) "interlock_4c" =
      some (snapOf "interlock_4c" (iaqRow none "interlock_4c" 1000 none (some 2))) ∧
    (snapOf "interlock_4c" (iaqRow none "interlock_4c" 1000 none (some 2))).timestamp
      = some 1000 ∧
    (1000 : Int) < 2000 ∧ (some 1000 : Option Int) ≠ some 2000 :=
  ⟨latest_alias_scenario 1000 2000 (by norm_num), rfl, by norm_num, by simp⟩

/-- Claim C3, amended: the latest-value extractor ignores readings on channel
`"4"` entirely (its `targetSensors` list contains only the named channels);
consequently, with readings on `"interlock_4c"` at `t1` and on `"4"` at `t2`,
the interlock snapshot is the `"interlock_4c"` reading at `t1`, whatever
`t2` is.  Alias unification of `"4"` exists only in the mode segmenter. -/
theorem claim_c3_amended :
    (∀ (rows₁ rows₂ : List Row) (x : Row), x.sensor_id = "4" →
      getLastestIAQData (rows₁ ++ x :: rows₂) = getLastestIAQData (rows₁ ++ rows₂)) ∧
    (∀ t1 t2 : Int, 0 < t1 →
      alookup (getLastestIAQData
        [iaqRow none "interlock_4c" t1 none (some 2),
         iaqRow none "4" t2 none (some 3)]) "interlock_4c" =
        some (snapOf "interlock_4c" (iaqRow none "interlock_4c" t1 none (some 2)))) :=
  ⟨latest_ignores_four_aux, fun t1 t2 h => latest_alias_scenario t1 t2 h⟩

/-- Witness for C3's amended theorem at concrete inputs. -/
theorem claim_c3_witness :
    getLastestIAQData ([] ++ iaqRow none "4" 7 none none :: []) =
      getLastestIAQData ([] ++ []) ∧
    alookup (getLastestIAQData
      [iaqRow none "interlock_4c" 5 none (some 2),
       iaqRow none "4" 9 none (some 3)]) "interlock_4c" =
      some (snapOf "interlock_4c" (iaqRow none "interlock_4c" 5 none (some 2))) :=
  ⟨claim_c3_amended.1 [] [] (iaqRow none "4" 7 none none) rfl,
   claim_c3_amended.2 5 9 (by norm_num)⟩

/-- Claim C4: the bands produced by `buildModeBands` never overlap: every
adjacent pair satisfies `bands[i].to ≤ bands[i+1].from`. -/
theorem claim_c4_band_non_overlap (rows : List Row) (ws we : Int) :
    List.Chain' (fun b1 b2 => b1.toTs ≤ b2.fromTs) (buildModeBands rows ws we) :=
  buildModeBands_chain rows ws we

/-- Claim C5, counterexample: two readings with equal timestamps arriving in
the order `"b"` then `"a"` are kept in arrival (map-insertion) order by the
merge, so the output is not secondarily ordered by identity string. -/
theorem claim_c5_counterexample :
    mergeStore [] [c5RowB, c5RowA] 0 = [c5RowB, c5RowA] ∧
    ¬ List.Pairwise tsIdLex (mergeStore [] [c5RowB, c5RowA] 0) :=
  ⟨c5_merge_result, c5_not_id_sorted⟩

/-- Claim C5, amended: the merge output is sorted ascending by timestamp;
for equal timestamps the stable sort keeps the dedup map's key-insertion
order (as the concrete instance shows), not the identity-string order. -/
theorem claim_c5_amended :
    (∀ (S B : List Row) (c : Int), List.Sorted tsLE (mergeStore S B c)) ∧
    mergeStore [] [c5RowB, c5RowA] 0 = [c5RowB, c5RowA] :=
  ⟨mergeStore_sorted, c5_merge_result⟩

/-- Claim C6: terminal flush.  If the state machine is still in an open band
after the last reading, it emits a band reaching `windowEnd`; in particular
control readings `[(t0, 1), (t1, 1), (t2, 3)]` with
`t0 < t1 < t2 < windowEnd` produce exactly
`[Band(t0, t2, 1), Band(t2, windowEnd, 3)]`. -/
theorem claim_c6_terminal_flush :
    (∀ we m s : Int, bandsGo we [] (some m) (some s) = [bandOf s we m]) ∧
    (∀ ws we t0 t1 t2 : Int, ws ≤ t0 → t0 < t1 → t1 < t2 → t2 < we →
      buildModeBands
        [iaqRow none "interlock_4c" t0 none (some 1),
         iaqRow none "interlock_4c" t1 none (some 1),
         iaqRow none "interlock_4c" t2 none (some 3)] ws we =
      [bandOf t0 t2 1, bandOf t2 we 3]) :=
  ⟨bandsGo_nil_open, terminal_flush_scenario⟩

/-- Witness for C6 at concrete inputs. -/
theorem claim_c6_witness :
    buildModeBands
      [iaqRow none "interlock_4c" 1 none (some 1),
       iaqRow none "interlock_4c" 2 none (some 1),
       iaqRow none "interlock_4c" 3 none (some 3)] 0 10 =
    [bandOf 1 3 1, bandOf 3 10 3] :=
  claim_c6_terminal_flush.2 0 10 1 2 3 (by norm_num) (by norm_num)
    (by norm_num) (by norm_num)

/-- Claim C7: an unclassified reading (no mode, or a mode without a palette
color, including every integer outside 0..5) closes any open band at its
timestamp and opens no new one; in particular `[(t0, 2), (t1, null)]` yields
exactly `[Band(t0, t1, 2)]`. -/
theorem claim_c7_unclassified_closes :
    (∀ m : Int, (m < 0 ∨ 5 < m) → modeColor m = none) ∧
    (∀ (we : Int) (r : Row) (rest : List Row) (m0 s : Int),
      (r.mode = none ∨ ∃ mv, r.mode = some mv ∧ modeColor mv = none) →
      bandsGo we (r :: rest) (some m0) (some s) =
        bandOf s r.timestamp m0 :: bandsGo we rest none none) ∧
    (∀ ws we t0 t1 : Int, ws ≤ t0 → t0 < t1 → t1 ≤ we →
      buildModeBands
        [iaqRow none "interlock_4c" t0 none (some 2),
         iaqRow none "interlock_4c" t1 none none] ws we =
      [bandOf t0 t1 2]) :=
  ⟨modeColor_out_of_domain, bandsGo_unclassified_closes, unclassified_scenario⟩

/-- Witness for C7 at concrete inputs. -/
theorem claim_c7_witness :
    modeColor 9 = none ∧
    bandsGo 10 [iaqRow none "interlock_4c" 4 none none] (some 2) (some 1) =
      bandOf 1 4 2 :: bandsGo 10 [] none none ∧
    buildModeBands
      [iaqRow none "interlock_4c" 1 none (some 2),
       iaqRow none "interlock_4c" 2 none none] 0 10 = [bandOf 1 2 2] :=
  ⟨claim_c7_unclassified_closes.1 9 (by norm_num),
   claim_c7_unclassified_closes.2.1 10 (iaqRow none "interlock_4c" 4 none none)
     [] 2 1 (Or.inl rfl),
   claim_c7_unclassified_closes.2.2 0 10 1 2 (by norm_num) (by norm_num)
     (by norm_num)⟩

/-- Claim C8, counterexample: on an empty store every requested channel gets
its fixed fallback record, but the fallback timestamp is the number `0`, not
null as the claim states. -/
theorem claim_c8_counterexample :
    getLastestIAQData [] = initLatest ∧
    (∀ p ∈ initLatest, p.2.timestamp = some 0) ∧
    (some 0 : Option Int) ≠ none :=
  ⟨rfl, by decide, by simp⟩

/-- Claim C8, amended: a requested channel with no reading in the retained
set keeps its fixed-shape fallback record: null measurement fields and mode,
and sentinel timestamp `0` (rendered as no update time by the consumer) —
never a missing entry. -/
theorem claim_c8_amended (rows : List Row) (c : String)
    (hc : c ∈ targetSensors) (hnone : ∀ r ∈ rows, r.sensor_id ≠ c) :
    alookup (getLastestIAQData rows) c = some (fallbackFor c) ∧
    (fallbackFor c).timestamp = some 0 ∧ (fallbackFor c).co2 = none ∧
    (fallbackFor c).humidity = none ∧ (fallbackFor c).temperature = none ∧
    (fallbackFor c).mode = none :=
  ⟨latest_fallback_aux rows c hc hnone, rfl, rfl, rfl, rfl, rfl⟩

/-- Witness for C8's amended theorem at concrete inputs. -/
theorem claim_c8_witness :
    alookup (getLastestIAQData [iaqRow none "other" 5 none none]) "before_scrub" =
      some (fallbackFor "before_scrub") ∧
    (fallbackFor "before_scrub").timestamp = some 0 ∧
    (fallbackFor "before_scrub").co2 = none ∧
    (fallbackFor "before_scrub").humidity = none ∧
    (fallbackFor "before_scrub").temperature = none ∧
    (fallbackFor "before_scrub").mode = none :=
  claim_c8_amended [iaqRow none "other" 5 none none] "before_scrub"
    (by simp [targetSensors]) (by decide)

/-- Claim C9: series gap preservation.  If every reading of channel `c` at
timestamp `t` has no metric value, no point with `x = t` appears in `c`'s
series, while every in-window reading of `c` with a value contributes its
point to `c`'s (sorted) series in `buildSeries`. -/
theorem claim_c9_gap_preservation (rows : List Row) (ws we : Int)
    (pickY : Row → Option Rat) (sensorLabel : String → String) (c : String)
    (t : Int)
    (hnone : ∀ r ∈ rows, r.sensor_id = c → r.timestamp = t → pickY r = none) :
    (∀ pts, (c, pts) ∈ buildBuckets rows ws we pickY →
      ((sensorLabel c, pts.insertionSort ptLE) ∈
          buildSeries rows ws we pickY sensorLabel ∧
        ∀ p ∈ pts.insertionSort ptLE, p.x ≠ t)) ∧
    (∀ r ∈ rows, r.sensor_id = c → ws ≤ r.timestamp → r.timestamp ≤ we →
      ∀ v, pickY r = some v →
        ∃ pts, (c, pts) ∈ buildBuckets rows ws we pickY ∧
          ({ x := r.timestamp, y := v } : Point) ∈ pts.insertionSort ptLE) :=
  buildSeries_gap_aux rows ws we pickY sensorLabel c t hnone

/-- Witness for C9 at concrete inputs: readings at 1, 2, 3 where the one at
2 has no co2 value. -/
theorem claim_c9_witness :
    (∀ pts, ("s", pts) ∈ buildBuckets
        [iaqRow none "s" 1 (some 5) none, iaqRow none "s" 2 none none,
         iaqRow none "s" 3 (some 7) none] 0 10 (fun r => r.co2) →
      ((id "s", pts.insertionSort ptLE) ∈ buildSeries
          [iaqRow none "s" 1 (some 5) none, iaqRow none "s" 2 none none,
           iaqRow none "s" 3 (some 7) none] 0 10 (fun r => r.co2) id ∧
        ∀ p ∈ pts.insertionSort ptLE, p.x ≠ 2)) ∧
    (∀ r ∈ [iaqRow none "s" 1 (some 5) none, iaqRow none "s" 2 none none,
        iaqRow none "s" 3 (some 7) none],
      r.sensor_id = "s" → 0 ≤ r.timestamp → r.timestamp ≤ 10 →
      ∀ v, r.co2 = some v →
        ∃ pts, ("s", pts) ∈ buildBuckets
            [iaqRow none "s" 1 (some 5) none, iaqRow none "s" 2 none none,
             iaqRow none "s" 3 (some 7) none] 0 10 (fun r => r.co2) ∧
          ({ x := r.timestamp, y := v } : Point) ∈ pts.insertionSort ptLE) :=
  claim_c9_gap_preservation
    [iaqRow none "s" 1 (some 5) none, iaqRow none "s" 2 none none,
     iaqRow none "s" 3 (some 7) none] 0 10 (fun r => r.co2) id "s" 2 (by decide)

/-- Claim C10: latest-value tie-break.  The extractor replaces only on a
strictly greater timestamp, so when several retained readings of a target
channel share the maximal (positive) timestamp `t`, the snapshot kept is the
one appearing earliest in the retained sequence, not the last one merged. -/
theorem claim_c10_tie_break (c : String) (pre mid post : List Row) (r r2 : Row)
    (t : Int) (hc : c ∈ targetSensors) (hr : r.sensor_id = c)
    (hr2 : r2.sensor_id = c) (ht : r.timestamp = t) (ht2 : r2.timestamp = t)
    (hpos : 0 < t)
    (hpre : ∀ x ∈ pre, x.sensor_id = c → x.timestamp < t)
    (hrest : ∀ x ∈ mid ++ r2 :: post, x.sensor_id = c → x.timestamp ≤ t) :
    alookup (getLastestIAQData (pre ++ r :: (mid ++ r2 :: post))) c =
      some (snapOf c r) :=
  latest_tie_aux c pre mid post r r2 t hc hr hr2 ht ht2 hpos hpre hrest

/-- Witness for C10 at concrete inputs: readings `"p"` and `"q"` share the
maximal timestamp 5; the earlier `"p"` wins. -/
theorem claim_c10_witness :
    alookup (getLastestIAQData
      ([iaqRow none "before_scrub" 3 (some 1) none] ++
        iaqRow (some "p") "before_scrub" 5 (some 2) none ::
          ([] ++ iaqRow (some "q") "before_scrub" 5 (some 4) none :: [])))
      "before_scrub" =
      some (snapOf "before_scrub" (iaqRow (some "p") "before_scrub" 5 (some 2) none)) :=
  claim_c10_tie_break "before_scrub"
    [iaqRow none "before_scrub" 3 (some 1) none] [] []
    (iaqRow (some "p") "before_scrub" 5 (some 2) none)
    (iaqRow (some "q") "before_scrub" 5 (some 4) none) 5
    (by simp [targetSensors]) rfl rfl rfl rfl (by norm_num)
    (by decide) (by decide)
